import Mathlib

/-!
A verification development for the marcthe12/cache repository (a Go
in-process key/value cache with an intrusive hash table, a policy-ordered
eviction list, TTLs, cost accounting and a binary snapshot codec).

The Go source is shallowly embedded: machine integers (uint64, int64)
become Nat/Int with explicit reduction modulo 2^64 where Go overflows;
Go byte slices become List Nat; Go time.Time values become a single Int
holding nanoseconds since January 1 of year 1 UTC (Go's internal epoch),
so the zero Int is exactly Go's zero time ("no expiration"); pointers
into the two intrusive lists become positions in Lean lists (the
eviction list is the sequence of node ids from sentinel.EvictNext to the
sentinel, front first; each hash bucket chain is the sequence of node
ids from bucket.HashNext to the bucket sentinel).  Fallible decoding
returns Option.
-/

namespace CacheSpec

/-! ## FNV hashing (src/utils.go)

The Go function hash calls fnv.New64 from the standard library and
writes the key through it.  fnv.New64 is the FNV-1 variant: for each
byte the state is first multiplied by the prime and then xored with the
byte.  fnv.New64a, the FNV-1a variant named by the repository's doc
comment and by the specification, xors first and multiplies second.
Both are embedded here so the two can be compared. -/

def fnvPrime : Nat := 1099511628211

def fnvOffset : Nat := 14695981039346656037

def u64Mod : Nat := 2 ^ 64

/-- One step of FNV-1: multiply, then xor (what fnv.New64 does). -/
def fnv1Step (h b : Nat) : Nat := (h * fnvPrime) % u64Mod ^^^ b

/-- One step of FNV-1a: xor, then multiply (what fnv.New64a would do). -/
def fnv1aStep (h b : Nat) : Nat := ((h ^^^ b) * fnvPrime) % u64Mod

/-- The 64-bit FNV-1 hash of a byte sequence. -/
def fnv1 (data : List Nat) : Nat := data.foldl fnv1Step fnvOffset

/-- The 64-bit FNV-1a hash of a byte sequence, as the specification
defines the store's hash function. -/
def fnv1a (data : List Nat) : Nat := data.foldl fnv1aStep fnvOffset

/-- Embedding of hash (src/utils.go): the repository writes the key
through fnv.New64, i.e. computes FNV-1. -/
def goHash (data : List Nat) : Nat := fnv1 data

/-! ## Go time model

A Go time.Time stores seconds since January 1 of year 1 plus a
nanosecond field in [0, 1e9); we fuse the two into one Int of
nanoseconds since that epoch.  IsZero is equality with 0, After is
ordering, Unix() is floor division by 1e9 followed by subtraction of
the 62135596800 seconds between year 1 and the Unix epoch. -/

def nsPerSec : Int := 1000000000

def unixToInternal : Int := 62135596800

/-- time.Time.Unix(): whole seconds since the Unix epoch (floored). -/
def timeUnix (t : Int) : Int := t.fdiv nsPerSec - unixToInternal

/-- Truncation of an instant to whole-second resolution. -/
def secTrunc (t : Int) : Int := t.fdiv nsPerSec * nsPerSec

/-- Go conversion uint64(i) of an int64: two's-complement bits, i.e.
reduction modulo 2^64. -/
def u64ofInt (i : Int) : Nat := (i % (u64Mod : Int)).toNat

/-- Go conversion int64(n) of a uint64: reinterpret the bits. -/
def intOfU64 (n : Nat) : Int := if n < 2 ^ 63 then (n : Int) else (n : Int) - (u64Mod : Int)

/-- EncodeTime (src/encoding.go line 32) as the 64-bit word it writes:
uint64(val.Unix()). -/
def encodeTimeWord (t : Int) : Nat := u64ofInt (timeUnix t)

/-- DecodeTime (src/encoding.go line 110) from the 64-bit word it read:
time.Unix(int64(ts), 0). -/
def decodeTimeWord (n : Nat) : Int := (intOfU64 n + unixToInternal) * nsPerSec

theorem intOfU64_u64ofInt (i : Int) (h1 : -(2 ^ 63) ≤ i) (h2 : i < 2 ^ 63) :
    intOfU64 (u64ofInt i) = i := by
  unfold intOfU64 u64ofInt u64Mod
  rcases le_or_lt 0 i with hp | hn
  · have hmod : i % ((2 ^ 64 : Nat) : Int) = i := by
      apply Int.emod_eq_of_lt hp
      calc i < 2 ^ 63 := h2
        _ ≤ ((2 ^ 64 : Nat) : Int) := by norm_num
    rw [hmod]
    have : i.toNat < 2 ^ 63 := by omega
    simp only [this, if_pos]
    omega
  · have hmod : i % ((2 ^ 64 : Nat) : Int) = i + 2 ^ 64 := by
      have : i % ((2 ^ 64 : Nat) : Int) = (i + 2 ^ 64) % ((2 ^ 64 : Nat) : Int) := by
        push_cast
        omega
      rw [this]
      apply Int.emod_eq_of_lt (by omega)
      push_cast
      omega
    rw [hmod]
    have hge : ¬ ((i + 2 ^ 64).toNat < 2 ^ 63) := by omega
    rw [if_neg hge]
    push_cast
    omega

/-- Round trip of an expiration through the codec words: the instant
comes back truncated to whole seconds, provided its Unix value fits in
an int64 (true of every representable Go time). -/
theorem decodeTimeWord_encodeTimeWord (t : Int)
    (h1 : -(2 ^ 63) ≤ timeUnix t) (h2 : timeUnix t < 2 ^ 63) :
    decodeTimeWord (encodeTimeWord t) = secTrunc t := by
  unfold decodeTimeWord encodeTimeWord
  rw [intOfU64_u64ofInt _ h1 h2]
  unfold timeUnix secTrunc
  ring

/-! ## Nodes

The entry record of src/store.go, stripped of the four intrusive link
fields (list membership is represented positionally). -/

structure MNode where
  hash : Nat
  expiration : Int
  access : Nat
  key : List Nat
  value : List Nat
deriving DecidableEq, Repr

/-- node.Cost(): len(Key) + len(Value). -/
def nodeCost (n : MNode) : Nat := n.key.length + n.value.length

/-- node.IsValid(): no expiration, or expiration strictly after now. -/
def nodeValid (now : Int) (n : MNode) : Bool :=
  n.expiration == 0 || now < n.expiration

/-- node.TTL(): zero when there is no expiration, otherwise the signed
time remaining until the expiration. -/
def nodeTTL (now : Int) (n : MNode) : Int :=
  if n.expiration = 0 then 0 else n.expiration - now

/-- A node with its expiration truncated to whole seconds, which is what
one round trip through the snapshot codec produces. -/
def truncNode (n : MNode) : MNode := { n with expiration := secTrunc n.expiration }

/-! ## Binary snapshot codec (src/encoding.go)

All integers are eight little-endian bytes.  The encoder is a function
to a byte list; the decoder is a consuming parser returning the value
and the unread remainder, or none on a short read (io.ReadFull). -/

/-- The eight little-endian bytes of a uint64 (binary.LittleEndian.PutUint64). -/
def toLE8 (n : Nat) : List Nat :=
  [n % 256, n / 2 ^ 8 % 256, n / 2 ^ 16 % 256, n / 2 ^ 24 % 256,
   n / 2 ^ 32 % 256, n / 2 ^ 40 % 256, n / 2 ^ 48 % 256, n / 2 ^ 56 % 256]

/-- EncodeBytes: length prefix then the raw bytes. -/
def encodeBytes (b : List Nat) : List Nat := toLE8 b.length ++ b

/-- EncodeNode: hash, expiration, access, key, value in order. -/
def encodeNode (n : MNode) : List Nat :=
  toLE8 n.hash ++ toLE8 (encodeTimeWord n.expiration) ++ toLE8 n.access ++
    encodeBytes n.key ++ encodeBytes n.value

/-- DecodeUint64: read exactly eight bytes and recombine them
little-endian (binary.LittleEndian.Uint64). -/
def readU64 : List Nat → Option (Nat × List Nat)
  | b0 :: b1 :: b2 :: b3 :: b4 :: b5 :: b6 :: b7 :: rest =>
      some (b0 + 2 ^ 8 * b1 + 2 ^ 16 * b2 + 2 ^ 24 * b3 + 2 ^ 32 * b4 +
        2 ^ 40 * b5 + 2 ^ 48 * b6 + 2 ^ 56 * b7, rest)
  | _ => none

/-- DecodeBytes: read a length prefix, then that many bytes; a short
read fails. -/
def readBytes (l : List Nat) : Option (List Nat × List Nat) :=
  match readU64 l with
  | none => none
  | some (n, r) => if n ≤ r.length then some (r.take n, r.drop n) else none

/-- DecodeNodes (src/encoding.go line 128): decode one node record. -/
def readNode (l : List Nat) : Option (MNode × List Nat) :=
  match readU64 l with
  | none => none
  | some (h, r1) =>
    match readU64 r1 with
    | none => none
    | some (e, r2) =>
      match readU64 r2 with
      | none => none
      | some (a, r3) =>
        match readBytes r3 with
        | none => none
        | some (k, r4) =>
          match readBytes r4 with
          | none => none
          | some (v, r5) =>
              some (⟨h, decodeTimeWord e, a, k, v⟩, r5)

/-- Decode a run of count node records. -/
def readNodes : Nat → List Nat → Option (List MNode × List Nat)
  | 0, l => some ([], l)
  | c + 1, l =>
    match readNode l with
    | none => none
    | some (n, r) =>
      match readNodes c r with
      | none => none
      | some (ns, r2) => some (n :: ns, r2)

/-- The numeric fields and byte-slice lengths of a node all fit their Go
machine types, and the expiration's Unix value fits an int64.  Every
node a running Go store holds satisfies this. -/
def nodeWF (n : MNode) : Prop :=
  n.hash < u64Mod ∧ n.access < u64Mod ∧
    n.key.length < u64Mod ∧ n.value.length < u64Mod ∧
    -(2 ^ 63) ≤ timeUnix n.expiration ∧ timeUnix n.expiration < 2 ^ 63

instance (n : MNode) : Decidable (nodeWF n) := by
  unfold nodeWF
  infer_instance

theorem readU64_toLE8 (n : Nat) (hn : n < u64Mod) (r : List Nat) :
    readU64 (toLE8 n ++ r) = some (n, r) := by
  simp only [toLE8, List.cons_append, List.nil_append, readU64]
  refine congrArg some (Prod.ext ?_ rfl)
  simp only
  unfold u64Mod at hn
  omega

theorem readBytes_encodeBytes (b : List Nat) (hb : b.length < u64Mod) (r : List Nat) :
    readBytes (encodeBytes b ++ r) = some (b, r) := by
  unfold readBytes encodeBytes
  rw [List.append_assoc, readU64_toLE8 _ hb]
  simp only [List.length_append, le_add_iff_nonneg_right, Nat.zero_le, if_pos]
  rw [List.take_left, List.drop_left]

theorem readNode_encodeNode (n : MNode) (hn : nodeWF n) (r : List Nat) :
    readNode (encodeNode n ++ r) = some (truncNode n, r) := by
  obtain ⟨hh, ha, hk, hv, hu1, hu2⟩ := hn
  unfold readNode encodeNode
  have he : encodeTimeWord n.expiration < u64Mod := by
    unfold encodeTimeWord u64ofInt u64Mod
    omega
  simp only [List.append_assoc]
  rw [readU64_toLE8 _ hh]
  dsimp only
  rw [readU64_toLE8 _ he]
  dsimp only
  rw [readU64_toLE8 _ ha]
  dsimp only
  rw [readBytes_encodeBytes _ hk]
  dsimp only
  rw [readBytes_encodeBytes _ hv]
  dsimp only
  rw [decodeTimeWord_encodeTimeWord _ hu1 hu2]
  rfl

theorem readNodes_flatMap (ns : List MNode) (hns : ∀ n ∈ ns, nodeWF n) (r : List Nat) :
    readNodes ns.length (ns.flatMap encodeNode ++ r) = some (ns.map truncNode, r) := by
  induction ns with
  | nil => rfl
  | cons n ns ih =>
      simp only [List.length_cons, List.flatMap_cons, List.map_cons, readNodes,
        List.append_assoc]
      rw [readNode_encodeNode n (hns n (by simp)) _]
      dsimp only
      rw [ih (fun m hm => hns m (by simp [hm]))]

/-! ## The store (src/store.go, and the policies of the eviction file)

Arena representation: nodes live in a list indexed by node id; the hash
table is one id-chain per bucket (chain order = HashNext order from the
bucket sentinel); the eviction list is the id sequence from the
sentinel's EvictNext, front first.  The bucket count len(s.Bucket) is
the length of hashChains. -/

structure MStore where
  nodes : List MNode
  hashChains : List (List Nat)
  evictList : List Nat
  length : Nat
  cost : Nat
  maxCost : Nat
  policyType : Nat
deriving DecidableEq, Repr

/-- len(s.Bucket). -/
def capacityS (s : MStore) : Nat := s.hashChains.length

/-- Dereference a node id in the arena. -/
def nodeAt (s : MStore) (nid : Nat) : MNode := s.nodes.getD nid ⟨0, 0, 0, [], []⟩

/-- Link a node id at the front of the bucket chain at index idx (the
four-pointer splice just after the bucket sentinel). -/
def pushChain (chains : List (List Nat)) (idx nid : Nat) : List (List Nat) :=
  chains.set idx (nid :: chains.getD idx [])

/-- store.lookup: hash the key, scan the bucket chain in HashNext order,
return the first node with an equal key. -/
def lookupNid (s : MStore) (key : List Nat) : Option Nat :=
  (s.hashChains.getD (goHash key % capacityS s) []).find?
    (fun nid => (nodeAt s nid).key == key)

/-! ### Eviction policies (lfuPolicy.OnAccess and friends)

The policy hooks reorder the eviction list.  List positions replace the
intrusive pointers: position 0 is sentinel.EvictNext (the front), the
last position is sentinel.EvictPrev (the tail / next victim). -/

/-- Index of a node id in the eviction list. -/
def idxOfNid (l : List Nat) (x : Nat) : Nat := l.findIdx (· = x)

/-- The walk of lfuPolicy.OnAccess toward the front.  The walk starts at
the accessed node's EvictPrev and its guard is v.EvictPrev != sentinel,
so it examines positions i, i-1, ..., 1 and never position 0: the loop
body runs only while v still has a predecessor that is a real node (or
runs once with v = the sentinel itself when the accessed node is the
front, in which case the sentinel's access counter 0 qualifies at once).
It returns the first examined position whose access counter is at most
a. -/
def lfuScan (acc : Nat → Nat) (l : List Nat) (a : Nat) : Nat → Option Nat
  | 0 => none
  | i + 1 => if acc (l.getD (i + 1) 0) ≤ a then some (i + 1) else lfuScan acc l a i

/-- lfuPolicy.OnAccess, list part: with j the accessed node's position
and a its incremented access counter, walk positions j-1, ..., 1; on the
first hit splice the node just behind it, otherwise splice it at the
very front.  (When j = 0 the node stays at the front: the walk sees the
sentinel, whose access 0 always qualifies, and splices the node back
just after it.) -/
def lfuReposition (acc : Nat → Nat) (l : List Nat) (nid : Nat) : List Nat :=
  let j := idxOfNid l nid
  let a := acc nid + 1
  match lfuScan acc l a (j - 1) with
  | some i => (l.eraseIdx j).insertIdx (i + 1) nid
  | none => nid :: l.eraseIdx j

/-- The backward walk of ltrPolicy.update: examine positions i, ..., 1,
skipping entries with ttl 0, looking for a ttl strictly below T. -/
def ltrScanBack (ttl : Nat → Int) (l : List Nat) (T : Int) : Nat → Option Nat
  | 0 => none
  | i + 1 =>
      if ttl (l.getD (i + 1) 0) ≠ 0 ∧ ttl (l.getD (i + 1) 0) < T then some (i + 1)
      else ltrScanBack ttl l T i

/-- The forward walk of ltrPolicy.update: examine positions i, i+1, ...
up to the second-to-last, skipping ttl 0, looking for a ttl strictly
above T. -/
def ltrScanFwd (ttl : Nat → Int) (l : List Nat) (T : Int) (i : Nat) : Option Nat :=
  if h : i + 1 < l.length then
    if ttl (l.getD i 0) ≠ 0 ∧ T < ttl (l.getD i 0) then some i
    else ltrScanFwd ttl l T (i + 1)
  else none
termination_by l.length - i

/-- ltrPolicy.update: nodes with ttl 0 stay put; otherwise walk backward
for a strictly smaller positive ttl and splice behind it, else walk
forward for a strictly larger positive ttl and splice behind it, else
leave the node in place. -/
def ltrReposition (ttl : Nat → Int) (l : List Nat) (nid : Nat) : List Nat :=
  let j := idxOfNid l nid
  let T := ttl nid
  if T = 0 then l
  else
    match ltrScanBack ttl l T (j - 1) with
    | some i => (l.eraseIdx j).insertIdx (i + 1) nid
    | none =>
      match ltrScanFwd ttl l T (j + 1) with
      | some i => (l.eraseIdx j).insertIdx i nid
      | none => l

/-- Increment a node's access counter in the arena. -/
def bumpAccess (s : MStore) (nid : Nat) : MStore :=
  { s with nodes := s.nodes.set nid ({ nodeAt s nid with access := (nodeAt s nid).access + 1 }) }

/-- Access counter of a node id (for the LFU walk). -/
def accOf (s : MStore) (nid : Nat) : Nat := (nodeAt s nid).access

/-- TTL of a node id (for the LTR walk). -/
def ttlOf (now : Int) (s : MStore) (nid : Nat) : Int := nodeTTL now (nodeAt s nid)

/-- Policy.OnAccess dispatch: None and FIFO are no-ops, LRU moves the
node to the front, LFU increments the counter and repositions, LTR is a
no-op. -/
def policyOnAccess (now : Int) (s : MStore) (nid : Nat) : MStore :=
  match s.policyType with
  | 2 => { s with evictList := nid :: s.evictList.erase nid }
  | 3 => { bumpAccess s nid with evictList := lfuReposition (accOf s) s.evictList nid }
  | _ => s

/-- Policy.OnUpdate dispatch: None and FIFO are no-ops, LRU moves to the
front, LFU behaves exactly like its OnAccess, LTR repositions by ttl. -/
def policyOnUpdate (now : Int) (s : MStore) (nid : Nat) : MStore :=
  match s.policyType with
  | 2 => { s with evictList := nid :: s.evictList.erase nid }
  | 3 => { bumpAccess s nid with evictList := lfuReposition (accOf s) s.evictList nid }
  | 4 => { s with evictList := ltrReposition (ttlOf now s) s.evictList nid }
  | _ => s

/-- Policy.OnInsert dispatch: every policy pushes the new node at the
front of the eviction list (pushEvict); LTR then repositions it by ttl. -/
def policyOnInsert (now : Int) (s : MStore) (nid : Nat) : MStore :=
  match s.policyType with
  | 4 =>
      let s1 := { s with evictList := nid :: s.evictList }
      { s1 with evictList := ltrReposition (ttlOf now s1) s1.evictList nid }
  | _ => { s with evictList := nid :: s.evictList }

/-! ### Store operations -/

/-- store.Resize: double the bucket array and relink every node, walking
the old buckets in order and pushing each chain's nodes (in chain order)
at the front of their new bucket.  The eviction list is untouched. -/
def resizeS (s : MStore) : MStore :=
  let newCap := 2 * capacityS s
  let rebuilt := s.hashChains.foldl
    (fun acc chain =>
      chain.foldl (fun acc2 nid => pushChain acc2 ((nodeAt s nid).hash % newCap) nid) acc)
    (List.replicate newCap [])
  { s with hashChains := rebuilt }

/-- store.insert.  The resize guard is Go's
float64(Length)/float64(len(Bucket)) > 0.75 on the PRE-insert length;
both operands are small integers (a power of two and a count below
2^53), so the float comparison is exact and equals 4*Length >
3*capacity.  The guard is checked, then the node is created (ttl 0
meaning no expiration), linked at the front of its bucket chain, handed
to Policy.OnInsert, and cost and length are bumped. -/
def storeInsert (now : Int) (s : MStore) (key value : List Nat) (ttl : Int) : MStore :=
  let s1 := if 4 * s.length > 3 * capacityS s then resizeS s else s
  let h := goHash key
  let nid := s1.nodes.length
  let exp := if ttl = 0 then 0 else now + ttl
  let n : MNode := ⟨h, exp, 0, key, value⟩
  let s2 := { s1 with nodes := s1.nodes ++ [n]
                      hashChains := pushChain s1.hashChains (h % capacityS s1) nid }
  let s3 := policyOnInsert now s2 nid
  { s3 with cost := s3.cost + nodeCost n, length := s3.length + 1 }

/-- The shared in-place update path of store.Set and store.UpdateInPlace
on an existing node: replace the value, set the expiration to now+ttl or
clear it when ttl is 0, and adjust the cost by the size delta (Go
computes s.Cost + v.Cost() - cost in uint64; under the cost invariant
no underflow occurs, so Nat subtraction agrees). -/
def updNode (now : Int) (old : MNode) (value : List Nat) (ttl : Int) : MNode :=
  { old with value := value
             expiration := if ttl = 0 then 0 else now + ttl }

def setInPlace (now : Int) (s : MStore) (value : List Nat) (ttl : Int) (nid : Nat) : MStore :=
  { s with nodes := s.nodes.set nid (updNode now (nodeAt s nid) value ttl)
           cost := s.cost + nodeCost (updNode now (nodeAt s nid) value ttl)
                     - nodeCost (nodeAt s nid) }

/-- store.Set: on a hit, replace value and expiration in place (ttl 0
clears the expiration), adjust cost by the size delta and call
Policy.OnUpdate; on a miss, insert. -/
def storeSet (now : Int) (s : MStore) (key value : List Nat) (ttl : Int) : MStore :=
  match lookupNid s key with
  | some nid => policyOnUpdate now (setInPlace now s value ttl nid) nid
  | none => storeInsert now s key value ttl

/-- store.Get: a miss or an expired hit returns (nil, 0, false); the
expired branch of this revision has its lazy delete commented out, so
the store is returned untouched.  A valid hit calls Policy.OnAccess and
returns the value and ttl. -/
def storeGet (now : Int) (s : MStore) (key : List Nat) :
    (Option (List Nat) × Int × Bool) × MStore :=
  match lookupNid s key with
  | some nid =>
      if nodeValid now (nodeAt s nid) then
        ((some (nodeAt s nid).value, nodeTTL now (nodeAt s nid), true),
          policyOnAccess now s nid)
      else ((none, 0, false), s)
  | none => ((none, 0, false), s)

/-- deleteNode: unlink from both lists, subtract the cost, decrement the
length.  (The node stays in the arena; only its list memberships go.) -/
def deleteNodeS (s : MStore) (nid : Nat) : MStore :=
  { s with hashChains := s.hashChains.map (fun c => c.erase nid),
           evictList := s.evictList.erase nid,
           cost := s.cost - nodeCost (nodeAt s nid),
           length := s.length - 1 }

/-- store.Delete. -/
def storeDelete (s : MStore) (key : List Nat) : Bool × MStore :=
  match lookupNid s key with
  | some nid => (true, deleteNodeS s nid)
  | none => (false, s)

/-- The error values the store surfaces. -/
inductive GoError where
  | keyNotFound
  | other (code : Nat)
deriving DecidableEq, Repr

/-- store.UpdateInPlace: a miss returns ErrKeyNotFound; an expired hit
deletes the node and returns ErrKeyNotFound; otherwise the process
function runs, its error is returned with the store untouched, and its
result is installed through the same in-place path as Set. -/
def storeUpdateInPlace (now : Int) (s : MStore) (key : List Nat)
    (f : List Nat → Except GoError (List Nat)) (ttl : Int) :
    Option GoError × MStore :=
  match lookupNid s key with
  | none => (some .keyNotFound, s)
  | some nid =>
      if nodeValid now (nodeAt s nid) then
        match f (nodeAt s nid).value with
        | .error e => (some e, s)
        | .ok value => (none, policyOnUpdate now (setInPlace now s value ttl nid) nid)
      else (some .keyNotFound, deleteNodeS s nid)

/-- store.Memorize: a valid hit is an access returning the stored value;
otherwise the factory runs (modelled by its result value), its error is
returned with the store untouched, and its result is inserted. -/
def storeMemorize (now : Int) (s : MStore) (key : List Nat)
    (fac : Except GoError (List Nat)) (ttl : Int) :
    Except GoError (List Nat) × MStore :=
  let hit := match lookupNid s key with
    | some nid => if nodeValid now (nodeAt s nid) then some nid else none
    | none => none
  match hit with
  | some nid => (.ok (nodeAt s nid).value, policyOnAccess now s nid)
  | none =>
      match fac with
      | .error e => (.error e, s)
      | .ok v => (.ok v, storeInsert now s key v ttl)

/-- store.Init ∘ store.Clear: eight empty buckets, empty eviction list,
zero length and cost, max cost 0, policy None. -/
def initStore : MStore :=
  ⟨[], List.replicate 8 [], [], 0, 0, 0, 0⟩

/-! ### Whole-store codec (EncodeStore / DecodeStore) -/

/-- The nodes of the store in eviction-list order, front first
(sentinel.EvictNext onward). -/
def evictNodes (s : MStore) : List MNode := s.evictList.map (nodeAt s)

/-- EncodeStore: max cost, policy discriminant, length, then every node
in eviction-list order. -/
def encodeStore (s : MStore) : List Nat :=
  toLE8 s.maxCost ++ toLE8 s.policyType ++ toLE8 s.length ++
    (evictNodes s).flatMap encodeNode

/-- The bucket-count rule of DecodeStore: start at 128 and double while
below the record count. -/
def growCap (k L : Nat) : Nat :=
  if h : 0 < k ∧ k < L then growCap (2 * k) L else k
termination_by L - k
decreasing_by omega

/-- One iteration of the DecodeStore loop: give the decoded node the
next id, push it at the front of its bucket chain, append it at the TAIL
of the eviction list (v.EvictNext := sentinel), and accumulate its cost. -/
def loadNode (s : MStore) (v : MNode) : MStore :=
  { s with nodes := s.nodes ++ [v]
           hashChains := pushChain s.hashChains (v.hash % capacityS s) s.nodes.length
           evictList := s.evictList ++ [s.nodes.length]
           cost := s.cost + v.key.length + v.value.length }

/-- DecodeStore, applied to the store it mutates (the claims apply it to
a fresh initialized store).  SetPolicy's error is discarded, so an
out-of-range discriminant leaves the previous policy type in place; the
bucket array is replaced by the grown fresh one; cost accumulates onto
the incoming cost; the eviction list is extended at the tail in decode
order.  A decode error is collapsed to none (the Go original returns the
error with whatever partial state it reached; the claims only concern
the success path). -/
def decodeStoreBytes (d : List Nat) (s : MStore) : Option MStore :=
  match readU64 d with
  | none => none
  | some (mc, d1) =>
    match readU64 d1 with
    | none => none
    | some (pol, d2) =>
      match readU64 d2 with
      | none => none
      | some (len, d3) =>
        match readNodes len d3 with
        | none => none
        | some (ns, _) =>
            let s1 := { s with maxCost := mc
                               policyType := if pol ≤ 4 then pol else s.policyType
                               length := len
                               hashChains := List.replicate (growCap 128 len) [] }
            some (ns.foldl loadNode s1)

/-! ## The cache boundary (the file holding cache.Set, cache.Delete and
friends)

Only the latent-error plumbing matters to the claims: the background
worker stores any snapshot error or captured panic in c.err, and the
user-facing operations are supposed to consult it first.  The store
itself is the model above; the file handle and locks are not modelled. -/

structure CacheState where
  latent : Option GoError
  store : MStore
deriving DecidableEq, Repr

/-- cache.Set: short-circuits on the latent error, otherwise stores. -/
def cacheSet (now : Int) (c : CacheState) (key value : List Nat) (ttl : Int) :
    Option GoError × CacheState :=
  match c.latent with
  | some e => (some e, c)
  | none => (none, { c with store := storeSet now c.store key value ttl })

/-- cache.GetValue (which cache.Get wraps): short-circuits on the latent
error; a store miss becomes ErrKeyNotFound. -/
def cacheGetValue (now : Int) (c : CacheState) (key : List Nat) :
    (Option (List Nat) × Int × Option GoError) × CacheState :=
  match c.latent with
  | some e => ((none, 0, some e), c)
  | none =>
      match storeGet now c.store key with
      | ((v, ttl, ok), st) =>
          if ok then ((v, ttl, none), { c with store := st })
          else ((v, 0, some .keyNotFound), { c with store := st })

/-- cache.Delete: goes straight to the store — there is no latent-error
check in this function. -/
def cacheDelete (c : CacheState) (key : List Nat) : Option GoError × CacheState :=
  match storeDelete c.store key with
  | (ok, st) =>
      (if ok then none else some .keyNotFound, { c with store := st })

/-- cache.UpdateInPlace: short-circuits on the latent error, then
forwards to the store. -/
def cacheUpdateInPlace (now : Int) (c : CacheState) (key : List Nat)
    (f : List Nat → Except GoError (List Nat)) (ttl : Int) :
    Option GoError × CacheState :=
  match c.latent with
  | some e => (some e, c)
  | none =>
      match storeUpdateInPlace now c.store key f ttl with
      | (r, st) => (r, { c with store := st })

/-- cache.Memorize: short-circuits on the latent error, then forwards to
the store. -/
def cacheMemorize (now : Int) (c : CacheState) (key : List Nat)
    (fac : Except GoError (List Nat)) (ttl : Int) :
    Except GoError (List Nat) × CacheState :=
  match c.latent with
  | some e => (.error e, c)
  | none =>
      match storeMemorize now c.store key fac ttl with
      | (r, st) => (r, { c with store := st })

/-! ## PauseTimer (the pausedtimer package)

Only the control state matters: the stored duration, whether the
underlying ticker is armed, and at what period.  Stop clears armed;
Ticker.Reset(d) arms at period d. -/

structure PTState where
  duration : Int
  armed : Bool
  period : Int
deriving DecidableEq, Repr

/-- PauseTimer.Reset: store the duration; zero stops the ticker, any
other value arms it at that period. -/
def ptReset (d : Int) (t : PTState) : PTState :=
  if d = 0 then { t with duration := d, armed := false }
  else { t with duration := d, armed := true, period := d }

/-- PauseTimer.New: a nonzero duration arms the ticker at it; zero
creates the ticker at the maximal period and immediately Resets to 0. -/
def ptNew (d : Int) : PTState :=
  if d ≠ 0 then ⟨d, true, d⟩
  else ptReset 0 ⟨0, true, 9223372036854775807⟩

/-- PauseTimer.Resume: Reset at the currently stored duration. -/
def ptResume (t : PTState) : PTState := ptReset t.duration t

/-! ## Claims -/

/-- C2: the claim says hash(k) is the 64-bit FNV-1a hash of k for every
key.  The code's own doc comment says the same, but the call is to
fnv.New64, which is FNV-1, not FNV-1a (fnv.New64a); already on the
one-byte key 0x61 the two disagree: FNV-1 gives 0xaf63bd4c8601b7be
while FNV-1a gives 0xaf63dc4c8601ec8c. -/
theorem C2_hash_is_fnv1_not_fnv1a :
    goHash [0x61] = 12638153115695167422 ∧
    fnv1a [0x61] = 12638187200555641996 ∧
    goHash [0x61] ≠ fnv1a [0x61] := by
  refine ⟨by decide, by decide, by decide⟩

/-- C6 counterexample: the claim says the expiration field is 0 exactly
when the node has no expiration and that a 0 field decodes to "no
expiration".  In the code EncodeTime writes uint64(t.Unix()), and the
zero time's Unix value is -62135596800, so a node with no expiration is
written as 2^64 - 62135596800 = 18446744011573954816, not 0; conversely
a 0 field decodes to time.Unix(0, 0), the 1970 epoch — a real (long
past) expiration, not the zero time. -/
theorem C6_counterexample :
    encodeTimeWord 0 = 18446744011573954816 ∧
    encodeTimeWord 0 ≠ 0 ∧
    decodeTimeWord 0 = 62135596800 * 1000000000 ∧
    decodeTimeWord 0 ≠ 0 := by
  refine ⟨by decide, by decide, by decide, by decide⟩

/-- C6 (amended): the expiration field is uint64(Unix seconds) of the
node's absolute expiration (two's-complement for instants before 1970);
"no expiration" is written as the distinguished value
18446744011573954816 = uint64(-62135596800), which decodes back to "no
expiration", and in general an expiration decodes back truncated to
whole seconds. -/
theorem C6_expiration_field (t : Int)
    (h1 : -(2 ^ 63) ≤ timeUnix t) (h2 : timeUnix t < 2 ^ 63) :
    decodeTimeWord (encodeTimeWord t) = secTrunc t ∧
    (t = 0 → encodeTimeWord t = 18446744011573954816 ∧
      decodeTimeWord (encodeTimeWord t) = 0) := by
  refine ⟨decodeTimeWord_encodeTimeWord t h1 h2, ?_⟩
  rintro rfl
  exact ⟨by decide, by decide⟩

theorem C6_expiration_field_witness :
    (-(2 ^ 63) ≤ timeUnix 0 ∧ timeUnix 0 < 2 ^ 63) ∧
    (decodeTimeWord (encodeTimeWord 0) = secTrunc 0 ∧
      (0 = (0 : Int) → encodeTimeWord 0 = 18446744011573954816 ∧
        decodeTimeWord (encodeTimeWord 0) = 0)) :=
  ⟨⟨by decide, by decide⟩, C6_expiration_field 0 (by decide) (by decide)⟩

/-- C8 counterexample: the claim says resume() re-arms at the last
NON-ZERO duration, so after Reset(5) then Reset(0), Resume should arm
the ticker at period 5.  In the code Reset stores every duration,
including 0, and Resume merely calls Reset with the stored duration, so
after Reset(0) a Resume leaves the ticker stopped. -/
theorem C8_counterexample :
    (ptReset 5 (ptNew 5)).armed = true ∧
    (ptResume (ptReset 0 (ptReset 5 (ptNew 5)))).armed = false := by
  refine ⟨by decide, by decide⟩

/-- C8 (amended): reset(D') stores D' and stops the ticker when D' = 0,
otherwise arms it at period D'; resume() re-arms at the currently
STORED duration (the one passed to the most recent reset, zero or not),
so a resume after reset(0) leaves the ticker stopped regardless of any
earlier non-zero duration. -/
theorem C8_reset_resume (t : PTState) (d D : Int) :
    ptReset d t = (if d = 0 then { t with duration := 0, armed := false }
                   else { t with duration := d, armed := true, period := d }) ∧
    ptResume t = ptReset t.duration t ∧
    (ptResume (ptReset 0 (ptReset D t))).armed = false := by
  refine ⟨?_, rfl, ?_⟩
  · unfold ptReset
    split
    · simp_all
    · rfl
  · unfold ptResume ptReset
    simp

/-- C9's concrete store: one entry, key 0x01, value 0x02, inserted at
instant 0 with ttl 5 (nanoseconds), hence expired at instant 10. -/
def storeW9 : MStore := storeSet 0 initStore [1] [2] 5

/-- C9: Get on a key whose node exists but is expired returns
(nil, 0, false) and returns the store completely unchanged — the lazy
delete in this revision of store.Get is commented out, so the expired
node stays linked in its bucket chain and in the eviction list and
length and cost keep their values. -/
theorem C9_get_expired_unchanged (now : Int) (s : MStore) (key : List Nat) (nid : Nat)
    (hfound : lookupNid s key = some nid)
    (hexpired : nodeValid now (nodeAt s nid) = false) :
    storeGet now s key = ((none, 0, false), s) := by
  unfold storeGet
  rw [hfound]
  dsimp only
  rw [hexpired]
  rfl

theorem C9_get_expired_unchanged_witness :
    lookupNid storeW9 [1] = some 0 ∧
    nodeValid 10 (nodeAt storeW9 0) = false ∧
    storeGet 10 storeW9 [1] = ((none, 0, false), storeW9) :=
  ⟨by decide, by decide, C9_get_expired_unchanged 10 storeW9 [1] 0 (by decide) (by decide)⟩

/-! ### Frame lemmas for the policy hooks -/

theorem getD_set_mnode (ns : List MNode) (nid m : Nat) (x d : MNode) :
    (ns.set nid x).getD m d = if m = nid ∧ nid < ns.length then x else ns.getD m d := by
  rcases eq_or_ne m nid with rfl | hne
  · by_cases hlt : m < ns.length
    · simp [List.getD_eq_getElem?_getD, List.getElem?_set_eq_of_lt _ hlt, hlt]
    · rw [List.set_eq_of_length_le (by omega)]
      simp [hlt]
  · simp [List.getD_eq_getElem?_getD, List.getElem?_set_ne (Ne.symm hne), hne]

theorem nodeAt_set (s : MStore) (nid m : Nat) (x : MNode) :
    nodeAt { s with nodes := s.nodes.set nid x } m =
      if m = nid ∧ nid < s.nodes.length then x else nodeAt s m := by
  unfold nodeAt
  exact getD_set_mnode s.nodes nid m x _

theorem nodeAt_setInPlace (now : Int) (s : MStore) (value : List Nat) (ttl : Int)
    (nid m : Nat) :
    nodeAt (setInPlace now s value ttl nid) m =
      if m = nid ∧ nid < s.nodes.length then updNode now (nodeAt s nid) value ttl
      else nodeAt s m := by
  unfold setInPlace nodeAt
  exact getD_set_mnode s.nodes nid m _ _

theorem nodeAt_bumpAccess (s : MStore) (nid m : Nat) :
    nodeAt (bumpAccess s nid) m =
      if m = nid ∧ nid < s.nodes.length
      then { nodeAt s nid with access := (nodeAt s nid).access + 1 }
      else nodeAt s m := by
  unfold bumpAccess
  exact nodeAt_set s nid m _

/-- The policy OnUpdate hooks only permute the eviction list and (for
LFU) bump the touched node's access counter: bucket chains, length,
cost, max cost, policy type, and every node's value, key, expiration
and hash are untouched. -/
theorem policyOnUpdate_frame (now : Int) (s : MStore) (nid : Nat) :
    (policyOnUpdate now s nid).hashChains = s.hashChains ∧
    (policyOnUpdate now s nid).length = s.length ∧
    (policyOnUpdate now s nid).cost = s.cost ∧
    (policyOnUpdate now s nid).maxCost = s.maxCost ∧
    (policyOnUpdate now s nid).policyType = s.policyType ∧
    ∀ m, (nodeAt (policyOnUpdate now s nid) m).value = (nodeAt s m).value ∧
      (nodeAt (policyOnUpdate now s nid) m).key = (nodeAt s m).key ∧
      (nodeAt (policyOnUpdate now s nid) m).expiration = (nodeAt s m).expiration ∧
      (nodeAt (policyOnUpdate now s nid) m).hash = (nodeAt s m).hash := by
  unfold policyOnUpdate
  split
  · exact ⟨rfl, rfl, rfl, rfl, rfl, fun m => ⟨rfl, rfl, rfl, rfl⟩⟩
  · refine ⟨rfl, rfl, rfl, rfl, rfl, fun m => ?_⟩
    have h := nodeAt_bumpAccess s nid m
    constructor
    · show (nodeAt (bumpAccess s nid) m).value = _
      rw [h]
      split <;> simp_all
    constructor
    · show (nodeAt (bumpAccess s nid) m).key = _
      rw [h]
      split <;> simp_all
    constructor
    · show (nodeAt (bumpAccess s nid) m).expiration = _
      rw [h]
      split <;> simp_all
    · show (nodeAt (bumpAccess s nid) m).hash = _
      rw [h]
      split <;> simp_all
  · exact ⟨rfl, rfl, rfl, rfl, rfl, fun m => ⟨rfl, rfl, rfl, rfl⟩⟩
  · exact ⟨rfl, rfl, rfl, rfl, rfl, fun m => ⟨rfl, rfl, rfl, rfl⟩⟩

/-- C4's concrete store: one entry, key 0x01, value 0x02, inserted at
instant 0 with ttl 5, valid at instant 3. -/
def storeW4 : MStore := storeSet 0 initStore [1] [2] 5

/-- C4: Set on a key that already has a live node replaces the value and
expiration in place on that node (ttl 0 clears the expiration), leaves
the bucket chains and the length untouched (the hash node is not
unlinked), adjusts the cost by the size delta, and hands the node to
Policy.OnUpdate. -/
theorem C4_set_existing (now : Int) (s : MStore) (key value : List Nat) (ttl : Int)
    (nid : Nat)
    (hfound : lookupNid s key = some nid)
    (hlive : nodeValid now (nodeAt s nid) = true)
    (hnid : nid < s.nodes.length) :
    storeSet now s key value ttl = policyOnUpdate now (setInPlace now s value ttl nid) nid ∧
    (storeSet now s key value ttl).hashChains = s.hashChains ∧
    (storeSet now s key value ttl).length = s.length ∧
    (storeSet now s key value ttl).cost
      = s.cost + ((nodeAt s nid).key.length + value.length) - nodeCost (nodeAt s nid) ∧
    (nodeAt (storeSet now s key value ttl) nid).value = value ∧
    (nodeAt (storeSet now s key value ttl) nid).expiration
      = (if ttl = 0 then 0 else now + ttl) ∧
    (nodeAt (storeSet now s key value ttl) nid).key = (nodeAt s nid).key ∧
    (nodeAt (storeSet now s key value ttl) nid).hash = (nodeAt s nid).hash := by
  have hset : storeSet now s key value ttl
      = policyOnUpdate now (setInPlace now s value ttl nid) nid := by
    unfold storeSet
    rw [hfound]
  obtain ⟨hch, hlen, hcost, _, _, hnode⟩ :=
    policyOnUpdate_frame now (setInPlace now s value ttl nid) nid
  have hsp : nodeAt (setInPlace now s value ttl nid) nid
      = updNode now (nodeAt s nid) value ttl := by
    rw [nodeAt_setInPlace]
    simp [hnid]
  refine ⟨hset, ?_, ?_, ?_, ?_, ?_, ?_, ?_⟩
  · rw [hset, hch]
    rfl
  · rw [hset, hlen]
    rfl
  · rw [hset, hcost]
    unfold setInPlace updNode nodeCost
    dsimp only
  · rw [hset, (hnode nid).1, hsp]
    rfl
  · rw [hset, (hnode nid).2.2.1, hsp]
    rfl
  · rw [hset, (hnode nid).2.1, hsp]
    rfl
  · rw [hset, (hnode nid).2.2.2, hsp]
    rfl

theorem C4_set_existing_witness :
    (lookupNid storeW4 [1] = some 0 ∧ nodeValid 3 (nodeAt storeW4 0) = true ∧
      0 < storeW4.nodes.length) ∧
    (storeSet 3 storeW4 [1] [9, 9] 0 = policyOnUpdate 3 (setInPlace 3 storeW4 [9, 9] 0 0) 0 ∧
     (storeSet 3 storeW4 [1] [9, 9] 0).hashChains = storeW4.hashChains ∧
     (storeSet 3 storeW4 [1] [9, 9] 0).length = storeW4.length ∧
     (storeSet 3 storeW4 [1] [9, 9] 0).cost
       = storeW4.cost + ((nodeAt storeW4 0).key.length + [9, 9].length)
           - nodeCost (nodeAt storeW4 0) ∧
     (nodeAt (storeSet 3 storeW4 [1] [9, 9] 0) 0).value = [9, 9] ∧
     (nodeAt (storeSet 3 storeW4 [1] [9, 9] 0) 0).expiration
       = (if (0 : Int) = 0 then 0 else 3 + 0) ∧
     (nodeAt (storeSet 3 storeW4 [1] [9, 9] 0) 0).key = (nodeAt storeW4 0).key ∧
     (nodeAt (storeSet 3 storeW4 [1] [9, 9] 0) 0).hash = (nodeAt storeW4 0).hash) :=
  ⟨⟨by decide, by decide, by decide⟩,
    C4_set_existing 3 storeW4 [1] [9, 9] 0 0 (by decide) (by decide) (by decide)⟩

/-- C10's concrete store: one valid entry under key 0x01. -/
def storeW10 : MStore := storeSet 0 initStore [1] [2] 5

/-- C10: UpdateInPlace and Memorize are atomic on callback failure —
when the process function (for a present, valid key) or the factory (on
a miss or an expired hit) returns an error, that same error is returned
and the store is unchanged: nothing is installed or inserted, and cost
and length keep their values. -/
theorem C10_callback_error_atomic (now : Int) (s : MStore) (key : List Nat)
    (f : List Nat → Except GoError (List Nat)) (fac : Except GoError (List Nat))
    (ttl : Int) (e : GoError) :
    (∀ nid, lookupNid s key = some nid → nodeValid now (nodeAt s nid) = true →
      f (nodeAt s nid).value = Except.error e →
      storeUpdateInPlace now s key f ttl = (some e, s)) ∧
    ((∀ nid, lookupNid s key = some nid → nodeValid now (nodeAt s nid) = false) →
      fac = Except.error e →
      storeMemorize now s key fac ttl = (Except.error e, s)) := by
  constructor
  · intro nid hfound hvalid herr
    unfold storeUpdateInPlace
    rw [hfound]
    dsimp only
    rw [if_pos (by simp [hvalid])]
    rw [herr]
  · intro hmiss hfac
    subst hfac
    unfold storeMemorize
    rcases hlk : lookupNid s key with _ | nid
    · rfl
    · simp [hmiss nid hlk]

theorem C10_callback_error_atomic_witness :
    (lookupNid storeW10 [1] = some 0 ∧ nodeValid 3 (nodeAt storeW10 0) = true ∧
      (fun _ => (Except.error (GoError.other 2) : Except GoError (List Nat)))
        (nodeAt storeW10 0).value = Except.error (GoError.other 2)) ∧
    storeUpdateInPlace 3 storeW10 [1] (fun _ => Except.error (GoError.other 2)) 0
      = (some (GoError.other 2), storeW10) ∧
    storeMemorize 3 storeW10 [7] (Except.error (GoError.other 4)) 0
      = (Except.error (GoError.other 4), storeW10) :=
  ⟨⟨by decide, by decide, rfl⟩,
   (C10_callback_error_atomic 3 storeW10 [1] (fun _ => Except.error (GoError.other 2))
      (Except.error (GoError.other 4)) 0 (GoError.other 2)).1 0 (by decide) (by decide) rfl,
   (C10_callback_error_atomic 3 storeW10 [7] (fun _ => Except.error (GoError.other 2))
      (Except.error (GoError.other 4)) 0 (GoError.other 4)).2
     (fun nid h => by rw [show lookupNid storeW10 [7] = none from by decide] at h; cases h)
     rfl⟩

/-- C7's concrete cache: latent error set, one entry under key 0x01. -/
def cacheW7 : CacheState := ⟨some (GoError.other 1), storeSet 0 initStore [1] [2] 0⟩

/-- C7 counterexample: the claim says all five of Set, Get, Delete,
UpdateInPlace and Memorize first check the latent error and
short-circuit, returning it without touching the store.  cache.Delete
performs no such check: on a cache whose latent error is set it goes
straight to the store, deletes the key, mutates the store and returns
nil (success) instead of the latent error. -/
theorem C7_counterexample :
    cacheW7.latent = some (GoError.other 1) ∧
    cacheDelete cacheW7 [1] ≠ (some (GoError.other 1), cacheW7) ∧
    (cacheDelete cacheW7 [1]).1 = none ∧
    (cacheDelete cacheW7 [1]).2.store.length = 0 ∧
    cacheW7.store.length = 1 := by
  refine ⟨rfl, by decide, by decide, by decide, by decide⟩

/-- C7 (amended): when the latent error is set, Set, Get(Value),
UpdateInPlace and Memorize short-circuit, returning that error with the
store untouched; Delete does NOT consult the latent error — its result
and its effect on the store are the same as on a cache without the
latent error. -/
theorem C7_latent_error_short_circuit (now : Int) (c : CacheState)
    (key value : List Nat) (ttl : Int)
    (f : List Nat → Except GoError (List Nat)) (fac : Except GoError (List Nat))
    (e : GoError) (h : c.latent = some e) :
    cacheSet now c key value ttl = (some e, c) ∧
    cacheGetValue now c key = ((none, 0, some e), c) ∧
    cacheUpdateInPlace now c key f ttl = (some e, c) ∧
    cacheMemorize now c key fac ttl = (Except.error e, c) ∧
    (cacheDelete c key).1 = (cacheDelete { c with latent := none } key).1 ∧
    (cacheDelete c key).2.store = (cacheDelete { c with latent := none } key).2.store := by
  refine ⟨?_, ?_, ?_, ?_, ?_, ?_⟩
  · unfold cacheSet
    rw [h]
  · unfold cacheGetValue
    rw [h]
  · unfold cacheUpdateInPlace
    rw [h]
  · unfold cacheMemorize
    rw [h]
  · unfold cacheDelete
    rfl
  · unfold cacheDelete
    rfl

theorem C7_latent_error_short_circuit_witness :
    cacheW7.latent = some (GoError.other 1) ∧
    (cacheSet 0 cacheW7 [3] [4] 0 = (some (GoError.other 1), cacheW7) ∧
     cacheGetValue 0 cacheW7 [3] = ((none, 0, some (GoError.other 1)), cacheW7) ∧
     cacheUpdateInPlace 0 cacheW7 [3] (fun v => Except.ok v) 0
       = (some (GoError.other 1), cacheW7) ∧
     cacheMemorize 0 cacheW7 [3] (Except.ok [5]) 0
       = (Except.error (GoError.other 1), cacheW7) ∧
     (cacheDelete cacheW7 [3]).1 = (cacheDelete { cacheW7 with latent := none } [3]).1 ∧
     (cacheDelete cacheW7 [3]).2.store
       = (cacheDelete { cacheW7 with latent := none } [3]).2.store) :=
  ⟨rfl, C7_latent_error_short_circuit 0 cacheW7 [3] [4] 0 (fun v => Except.ok v)
    (Except.ok [5]) (GoError.other 1) rfl⟩

/-- The reposition rule exactly as the specification states it (the
spec-side definition for claim C5): walk toward the front while the
predecessor's access is strictly greater; insert just behind the first
(nearest, i.e. greatest-index) predecessor with access at most the
node's new access — the front node included — otherwise at the front. -/
def lfuSpecClaimReposition (acc : Nat → Nat) (l : List Nat) (nid : Nat) : List Nat :=
  let j := idxOfNid l nid
  let a := acc nid + 1
  if j = 0 then l
  else if ∃ i ∈ List.range j, acc (l.getD i 0) ≤ a then
    (l.eraseIdx j).insertIdx
      (Nat.findGreatest (fun i => acc (l.getD i 0) ≤ a) (j - 1) + 1) nid
  else nid :: l.eraseIdx j

/-- What the code actually implements, phrased positionally (the
amended rule): the nearest predecessor at a position other than the
front whose access is at most the node's new access receives the node
just behind it; when no such predecessor exists — even if the front
node itself would qualify — the node moves to the very front. -/
def lfuSpecAmendedReposition (acc : Nat → Nat) (l : List Nat) (nid : Nat) : List Nat :=
  if Nat.findGreatest (fun i => 1 ≤ i ∧ acc (l.getD i 0) ≤ acc nid + 1)
      (idxOfNid l nid - 1) = 0
  then nid :: l.eraseIdx (idxOfNid l nid)
  else (l.eraseIdx (idxOfNid l nid)).insertIdx
    (Nat.findGreatest (fun i => 1 ≤ i ∧ acc (l.getD i 0) ≤ acc nid + 1)
      (idxOfNid l nid - 1) + 1) nid

theorem lfuScan_eq_findGreatest (acc : Nat → Nat) (l : List Nat) (a : Nat) (m : Nat) :
    lfuScan acc l a m =
      (if Nat.findGreatest (fun i => 1 ≤ i ∧ acc (l.getD i 0) ≤ a) m = 0 then none
       else some (Nat.findGreatest (fun i => 1 ≤ i ∧ acc (l.getD i 0) ≤ a) m)) := by
  induction m with
  | zero => rfl
  | succ m ih =>
      rw [lfuScan, Nat.findGreatest_succ]
      by_cases hc : acc (l.getD (m + 1) 0) ≤ a
      · have hp : 1 ≤ m + 1 ∧ acc (l.getD (m + 1) 0) ≤ a := ⟨by omega, hc⟩
        rw [if_pos hc, if_pos hp, if_neg (by omega : ¬ (m + 1 = 0))]
      · have hp : ¬ (1 ≤ m + 1 ∧ acc (l.getD (m + 1) 0) ≤ a) := fun h => hc h.2
        rw [if_neg hc, if_neg hp]
        exact ih

theorem lfuReposition_eq_amended (acc : Nat → Nat) (l : List Nat) (nid : Nat) :
    lfuReposition acc l nid = lfuSpecAmendedReposition acc l nid := by
  unfold lfuReposition lfuSpecAmendedReposition
  dsimp only
  rw [lfuScan_eq_findGreatest]
  by_cases h : Nat.findGreatest
      (fun i => 1 ≤ i ∧ acc (l.getD i 0) ≤ acc nid + 1) (idxOfNid l nid - 1) = 0
  · rw [if_pos h, if_pos h]
  · rw [if_neg h, if_neg h]

/-- C5's concrete store (policy LFU): two entries, both with access 0,
eviction order front to back [node 0, node 1]. -/
def storeW5 : MStore :=
  ⟨[⟨11, 0, 0, [1], [1]⟩, ⟨22, 0, 0, [2], [2]⟩], List.replicate 8 [], [0, 1], 2, 4, 0, 3⟩

/-- C5 counterexample: accessing the tail node of [front, tail] with
both access counters 0 shows the divergence.  The claimed rule inserts
the node just behind the first predecessor whose access is at most the
incremented counter — here the front node (access 0 ≤ 1) — so the spec
keeps the order [front, tail] (equal counts preserve FIFO order).  The
code's walk guard v.EvictPrev != sentinel never examines the front
node, so the accessed node is spliced in front of it: order [tail,
front], breaking the claimed FIFO tie order. -/
theorem C5_counterexample :
    (policyOnAccess 0 storeW5 1).evictList = [1, 0] ∧
    accOf (policyOnAccess 0 storeW5 1) 1 = 1 ∧
    lfuSpecClaimReposition (accOf storeW5) storeW5.evictList 1 = [0, 1] ∧
    (policyOnAccess 0 storeW5 1).evictList
      ≠ lfuSpecClaimReposition (accOf storeW5) storeW5.evictList 1 := by
  refine ⟨by decide, by decide, by decide, by decide⟩

/-- C5 (amended): LFU OnAccess increments the node's access counter and
repositions it just behind the nearest predecessor at a position other
than the front whose access is at most the new counter; when there is
none — even when the front node itself qualifies, as on ties with the
front — the node moves to the very front, overtaking the front node. -/
theorem C5_lfu_on_access (now : Int) (s : MStore) (nid : Nat)
    (hp : s.policyType = 3) :
    policyOnAccess now s nid =
      { bumpAccess s nid with
          evictList := lfuSpecAmendedReposition (accOf s) s.evictList nid } := by
  unfold policyOnAccess
  rw [hp]
  dsimp only
  rw [lfuReposition_eq_amended]

theorem C5_lfu_on_access_witness :
    storeW5.policyType = 3 ∧
    policyOnAccess 0 storeW5 1 =
      { bumpAccess storeW5 1 with
          evictList := lfuSpecAmendedReposition (accOf storeW5) storeW5.evictList 1 } :=
  ⟨rfl, C5_lfu_on_access 0 storeW5 1 rfl⟩

/-! ### Load factor (claim C3) -/

theorem length_pushChain (chains : List (List Nat)) (idx nid : Nat) :
    (pushChain chains idx nid).length = chains.length := by
  unfold pushChain
  exact List.length_set chains idx _

theorem length_foldl_push (g : Nat → Nat) (chain : List Nat) (acc : List (List Nat)) :
    (chain.foldl (fun acc2 nid => pushChain acc2 (g nid) nid) acc).length = acc.length := by
  induction chain generalizing acc with
  | nil => rfl
  | cons x xs ih => rw [List.foldl_cons, ih, length_pushChain]

theorem length_foldl2_push (g : Nat → Nat) (chains : List (List Nat))
    (acc : List (List Nat)) :
    (chains.foldl
      (fun acc chain => chain.foldl (fun acc2 nid => pushChain acc2 (g nid) nid) acc)
      acc).length = acc.length := by
  induction chains generalizing acc with
  | nil => rfl
  | cons c cs ih => rw [List.foldl_cons, ih, length_foldl_push]

/-- Resize doubles the bucket count and changes nothing else about the
store record (the eviction list in particular is untouched). -/
theorem capacityS_resizeS (s : MStore) : capacityS (resizeS s) = 2 * capacityS s := by
  show (s.hashChains.foldl _ (List.replicate (2 * capacityS s) [])).length = 2 * capacityS s
  rw [length_foldl2_push (fun nid => (nodeAt s nid).hash % (2 * capacityS s))]
  exact List.length_replicate _ _

theorem policyOnInsert_frame (now : Int) (s : MStore) (nid : Nat) :
    (policyOnInsert now s nid).hashChains = s.hashChains ∧
    (policyOnInsert now s nid).length = s.length ∧
    (policyOnInsert now s nid).cost = s.cost := by
  unfold policyOnInsert
  split
  · exact ⟨rfl, rfl, rfl⟩
  · exact ⟨rfl, rfl, rfl⟩

/-- The effect of a fresh-key insert on length and bucket count: length
always grows by one, and the bucket count doubles exactly when the
PRE-insert load factor length/capacity strictly exceeds 0.75. -/
theorem storeInsert_length_capacity (now : Int) (s : MStore) (key value : List Nat)
    (ttl : Int) :
    (storeInsert now s key value ttl).length = s.length + 1 ∧
    capacityS (storeInsert now s key value ttl)
      = (if 4 * s.length > 3 * capacityS s then 2 * capacityS s else capacityS s) := by
  have hfloat : (4 * s.length > 3 * capacityS s)
      = (4 * s.length > 3 * capacityS s) := rfl
  unfold storeInsert
  by_cases hc : 4 * s.length > 3 * capacityS s
  · rw [if_pos hc, if_pos hc]
    constructor
    · show (policyOnInsert now _ _).length + 1 = s.length + 1
      rw [(policyOnInsert_frame _ _ _).2.1]
      rfl
    · show (policyOnInsert now _ _).hashChains.length = 2 * capacityS s
      rw [(policyOnInsert_frame _ _ _).1]
      show (pushChain (resizeS s).hashChains _ _).length = _
      rw [length_pushChain]
      exact capacityS_resizeS s
  · rw [if_neg hc, if_neg hc]
    constructor
    · show (policyOnInsert now _ _).length + 1 = s.length + 1
      rw [(policyOnInsert_frame _ _ _).2.1]
    · show (policyOnInsert now _ _).hashChains.length = capacityS s
      rw [(policyOnInsert_frame _ _ _).1]
      show (pushChain s.hashChains _ _).length = _
      rw [length_pushChain]
      rfl

/-- storeSet preserves the load-factor invariant 4*length ≤ 3*capacity
+ 4 (that is, (length-1)/capacity ≤ 0.75) together with capacity ≥ 8. -/
theorem storeSet_invariant (now : Int) (s : MStore) (key value : List Nat) (ttl : Int)
    (h1 : 4 * s.length ≤ 3 * capacityS s + 4) (h2 : 8 ≤ capacityS s) :
    4 * (storeSet now s key value ttl).length
      ≤ 3 * capacityS (storeSet now s key value ttl) + 4 ∧
    8 ≤ capacityS (storeSet now s key value ttl) := by
  unfold storeSet
  rcases hlk : lookupNid s key with _ | nid
  · obtain ⟨hl, hcap⟩ := storeInsert_length_capacity now s key value ttl
    rw [hl, hcap]
    by_cases hc : 4 * s.length > 3 * capacityS s
    · rw [if_pos hc]
      omega
    · rw [if_neg hc]
      omega
  · obtain ⟨hch, hl, _, _, _, _⟩ := policyOnUpdate_frame now (setInPlace now s value ttl nid) nid
    rw [hl]
    have hcap : capacityS (policyOnUpdate now (setInPlace now s value ttl nid) nid)
        = capacityS s := by
      show (policyOnUpdate now _ _).hashChains.length = _
      rw [hch]
      rfl
    rw [hcap]
    exact ⟨h1, h2⟩

/-- A run of store.Set operations from the freshly initialized store;
each element carries (now, key, value, ttl). -/
def runSets (ops : List (Int × List Nat × List Nat × Int)) : MStore :=
  ops.foldl (fun s o => storeSet o.1 s o.2.1 o.2.2.1 o.2.2.2) initStore

theorem runSets_invariant (ops : List (Int × List Nat × List Nat × Int)) :
    4 * (runSets ops).length ≤ 3 * capacityS (runSets ops) + 4 ∧
    8 ≤ capacityS (runSets ops) := by
  have main : ∀ (ops : List (Int × List Nat × List Nat × Int)) (s : MStore),
      4 * s.length ≤ 3 * capacityS s + 4 → 8 ≤ capacityS s →
      4 * (ops.foldl (fun s o => storeSet o.1 s o.2.1 o.2.2.1 o.2.2.2) s).length
        ≤ 3 * capacityS (ops.foldl (fun s o => storeSet o.1 s o.2.1 o.2.2.1 o.2.2.2) s) + 4 ∧
      8 ≤ capacityS (ops.foldl (fun s o => storeSet o.1 s o.2.1 o.2.2.1 o.2.2.2) s) := by
    intro ops
    induction ops with
    | nil => intro s h1 h2; exact ⟨h1, h2⟩
    | cons o os ih =>
        intro s h1 h2
        rw [List.foldl_cons]
        obtain ⟨g1, g2⟩ := storeSet_invariant o.1 s o.2.1 o.2.2.1 o.2.2.2 h1 h2
        exact ih _ g1 g2
  exact main ops initStore (by decide) (by decide)

/-- The seven distinct single-byte keys 0x30 .. 0x36 inserted with no
expiration at instant 0. -/
def opsW3 : List (Int × List Nat × List Nat × Int) :=
  [(0, [48], [48], 0), (0, [49], [49], 0), (0, [50], [50], 0), (0, [51], [51], 0),
   (0, [52], [52], 0), (0, [53], [53], 0), (0, [54], [54], 0)]

/-- C3 counterexample: after the 7th insert into the fresh 8-bucket
store the length is 7 and the capacity is still 8, so the load factor is
7/8 > 0.75 and the claimed resize to 16 on the 7th insert did not
happen.  The resize guard compares the PRE-insert length/capacity
(6/8 = 0.75, not strictly greater), not (length+1)/capacity. -/
theorem C3_counterexample :
    (runSets opsW3).length = 7 ∧
    capacityS (runSets opsW3) = 8 ∧
    ¬ (4 * (runSets opsW3).length ≤ 3 * capacityS (runSets opsW3)) ∧
    capacityS (runSets opsW3) ≠ 16 := by
  refine ⟨by decide, by decide, by decide, by decide⟩

/-- C3 (amended): for every sequence of Sets from an initialized store,
after every insert (length - 1)/capacity ≤ 0.75 — equivalently
4*length ≤ 3*capacity + 4 — and the capacity stays at least 8; a fresh
insert increments the length and doubles the capacity (before linking
the new node) exactly when the PRE-insert length/capacity exceeds 0.75,
so with initial capacity 8 the resize to 16 happens on the 8th insert,
and after the 7th insert the load factor is 7/8. -/
theorem C3_load_factor :
    (∀ ops : List (Int × List Nat × List Nat × Int),
      4 * (runSets ops).length ≤ 3 * capacityS (runSets ops) + 4 ∧
      8 ≤ capacityS (runSets ops)) ∧
    (∀ (now : Int) (s : MStore) (key value : List Nat) (ttl : Int),
      lookupNid s key = none →
      (storeSet now s key value ttl).length = s.length + 1 ∧
      capacityS (storeSet now s key value ttl)
        = (if 4 * s.length > 3 * capacityS s then 2 * capacityS s else capacityS s)) := by
  constructor
  · exact runSets_invariant
  · intro now s key value ttl hmiss
    unfold storeSet
    rw [hmiss]
    exact storeInsert_length_capacity now s key value ttl

theorem C3_load_factor_witness :
    (4 * (runSets opsW3).length ≤ 3 * capacityS (runSets opsW3) + 4 ∧
      8 ≤ capacityS (runSets opsW3)) ∧
    lookupNid (runSets opsW3) [55] = none ∧
    ((storeSet 0 (runSets opsW3) [55] [55] 0).length = (runSets opsW3).length + 1 ∧
      capacityS (storeSet 0 (runSets opsW3) [55] [55] 0)
        = (if 4 * (runSets opsW3).length > 3 * capacityS (runSets opsW3)
           then 2 * capacityS (runSets opsW3) else capacityS (runSets opsW3))) :=
  ⟨C3_load_factor.1 opsW3, by decide,
    C3_load_factor.2 0 (runSets opsW3) [55] [55] 0 (by decide)⟩

/-! ### Snapshot round trip (claim C1) -/

theorem nodeCost_truncNode (n : MNode) : nodeCost (truncNode n) = nodeCost n := rfl

theorem evictNodes_loadNode (s0 : MStore) (v : MNode)
    (hids : ∀ nid ∈ s0.evictList, nid < s0.nodes.length) :
    evictNodes (loadNode s0 v) = evictNodes s0 ++ [v] := by
  unfold evictNodes loadNode nodeAt
  dsimp only
  rw [List.map_append]
  congr 1
  · apply List.map_congr_left
    intro nid hnid
    exact List.getD_append _ _ _ _ (hids nid hnid)
  · rw [List.map_cons, List.map_nil]
    rw [List.getD_append_right _ _ _ _ (Nat.le_refl _)]
    simp

theorem foldl_loadNode (ns : List MNode) (s0 : MStore)
    (hids : ∀ nid ∈ s0.evictList, nid < s0.nodes.length) :
    (ns.foldl loadNode s0).maxCost = s0.maxCost ∧
    (ns.foldl loadNode s0).policyType = s0.policyType ∧
    (ns.foldl loadNode s0).length = s0.length ∧
    (ns.foldl loadNode s0).cost = s0.cost + (ns.map nodeCost).sum ∧
    evictNodes (ns.foldl loadNode s0) = evictNodes s0 ++ ns := by
  induction ns generalizing s0 with
  | nil => exact ⟨rfl, rfl, rfl, by simp, by simp⟩
  | cons v vs ih =>
      rw [List.foldl_cons]
      have hids' : ∀ nid ∈ (loadNode s0 v).evictList, nid < (loadNode s0 v).nodes.length := by
        intro nid hnid
        unfold loadNode at hnid ⊢
        dsimp only at hnid ⊢
        rw [List.length_append]
        rcases List.mem_append.mp hnid with h | h
        · have := hids nid h
          omega
        · simp only [List.mem_singleton] at h
          subst h
          simp
      obtain ⟨a1, a2, a3, a4, a5⟩ := ih (loadNode s0 v) hids'
      refine ⟨a1, a2, a3, ?_, ?_⟩
      · rw [a4]
        show s0.cost + v.key.length + v.value.length + (vs.map nodeCost).sum = _
        rw [List.map_cons, List.sum_cons]
        unfold nodeCost
        omega
      · rw [a5, evictNodes_loadNode s0 v hids]
        rw [List.append_assoc]
        rfl

/-- Well-formedness of a store as the snapshot writer sees it: the
stored length matches the eviction list, the accumulated cost matches
the live entries, the machine fields fit their Go types, the policy
discriminant is one of the five valid ones, and every live node is
well formed.  Every store a running Go cache reaches satisfies this. -/
def storeWF (s : MStore) : Prop :=
  s.length = s.evictList.length ∧
  s.cost = ((evictNodes s).map nodeCost).sum ∧
  s.maxCost < u64Mod ∧
  s.policyType ≤ 4 ∧
  s.length < u64Mod ∧
  ∀ n ∈ evictNodes s, nodeWF n

instance (s : MStore) : Decidable (storeWF s) := by
  unfold storeWF
  infer_instance

/-- C1: encoding a well-formed store with the snapshot codec and
decoding the bytes into a fresh initialized store yields a store with
the same max cost, the same policy type, the same length and
accumulated cost, and the same live entries (keys, values, hashes,
access counters) in the same eviction-list order front to back — the
loader appends each decoded node at the tail.  Expirations agree at
second resolution (each is truncated to its whole second; in particular
"no expiration" round-trips to "no expiration"). -/
theorem C1_snapshot_roundtrip (s : MStore) (hwf : storeWF s) :
    ∃ t, decodeStoreBytes (encodeStore s) initStore = some t ∧
      t.maxCost = s.maxCost ∧
      t.policyType = s.policyType ∧
      t.length = s.length ∧
      t.cost = s.cost ∧
      evictNodes t = (evictNodes s).map truncNode := by
  obtain ⟨hlen, hcost, hmc, hpol, hlu, hnodes⟩ := hwf
  unfold encodeStore decodeStoreBytes
  rw [List.append_assoc, List.append_assoc]
  rw [readU64_toLE8 _ hmc]
  dsimp only
  rw [readU64_toLE8 _ (lt_of_le_of_lt hpol (by unfold u64Mod; norm_num))]
  dsimp only
  rw [readU64_toLE8 _ hlu]
  dsimp only
  have hcount : s.length = (evictNodes s).length := by
    rw [hlen]
    unfold evictNodes
    rw [List.length_map]
  rw [hcount, ← List.append_nil ((evictNodes s).flatMap encodeNode)]
  rw [readNodes_flatMap (evictNodes s) hnodes []]
  dsimp only
  obtain ⟨a1, a2, a3, a4, a5⟩ :=
    foldl_loadNode ((evictNodes s).map truncNode)
      { initStore with maxCost := s.maxCost
                       policyType := if s.policyType ≤ 4 then s.policyType
                                     else initStore.policyType
                       length := (evictNodes s).length
                       hashChains := List.replicate (growCap 128 (evictNodes s).length) [] }
      (by intro nid h; simp [initStore] at h)
  refine ⟨_, rfl, ?_, ?_, ?_, ?_, ?_⟩
  · exact a1
  · rw [a2]
    show (if s.policyType ≤ 4 then s.policyType else initStore.policyType) = s.policyType
    rw [if_pos hpol]
  · exact a3
  · rw [a4]
    show 0 + (((evictNodes s).map truncNode).map nodeCost).sum = s.cost
    rw [List.map_map]
    have : (nodeCost ∘ truncNode) = nodeCost := by
      funext n
      exact nodeCost_truncNode n
    rw [this, Nat.zero_add, hcost]
  · rw [a5]
    show List.map _ [] ++ _ = _
    rw [List.map_nil, List.nil_append]

/-- C1's concrete store: policy LRU, max cost 100, two live entries in
eviction order [node 0, node 1]; node 0 has no expiration, node 1
expires one second after the Unix epoch (with a 500 ns fraction that the
codec truncates). -/
def storeW1 : MStore :=
  ⟨[⟨5, 0, 2, [1, 2], [3]⟩, ⟨9, 62135596801000000500, 7, [4], [5, 6]⟩],
   List.replicate 8 [], [0, 1], 2, 6, 100, 2⟩

theorem C1_snapshot_roundtrip_witness :
    storeWF storeW1 ∧
    (∃ t, decodeStoreBytes (encodeStore storeW1) initStore = some t ∧
      t.maxCost = storeW1.maxCost ∧
      t.policyType = storeW1.policyType ∧
      t.length = storeW1.length ∧
      t.cost = storeW1.cost ∧
      evictNodes t = (evictNodes storeW1).map truncNode) :=
  ⟨by decide, C1_snapshot_roundtrip storeW1 (by decide)⟩

end CacheSpec
